import Mathlib

/-!
Verification development for the company export API (api.py).

Strings are modelled as lists of characters; a helper `str` converts a
Lean string literal to that representation.  Python string operations
used by the code (strip, lower, the regex substitution of
safe_filename, the two regex filters) are embedded as Lean functions on
character lists.  The MongoDB collection is modelled as a list of
company documents; the two-stage lookup of the GET / handler, the alias
table, the filename construction and the response dispatch are embedded
directly from api.py.
-/

/-- Convert a Lean string literal to the list-of-characters representation
used throughout this development. -/
def str (s : String) : List Char := s.data

/-- A single quote character (used in detail messages of api.py). -/
def squote : Char := Char.ofNat 39

/-- Python s.strip(): remove leading and trailing whitespace
(api.py uses .strip() in anchored_ci_exact and resolve_target). -/
def pyStrip (l : List Char) : List Char :=
  ((l.dropWhile Char.isWhitespace).reverse.dropWhile Char.isWhitespace).reverse

/-- Python s.lower(): lowercase every character
(api.py uses .lower() in resolve_target; restricted to the ASCII range,
which covers every key of the alias table). -/
def pyLower (l : List Char) : List Char := l.map Char.toLower

/-- The character class [A-Za-z0-9._-] of the regex in safe_filename. -/
def allowedChar (c : Char) : Bool :=
  (('A' ≤ c && c ≤ 'Z') || ('a' ≤ c && c ≤ 'z') || ('0' ≤ c && c ≤ '9') ||
    c == '.' || c == '_' || c == '-')

/-- Helper of `subRuns`: the boolean records whether the previous character
belonged to a run of disallowed characters (a maximal run is replaced by a
single underscore, as re.sub with pattern [^A-Za-z0-9._-]+ does). -/
def subAux : Bool → List Char → List Char
  | _, [] => []
  | inRun, c :: rest =>
    if allowedChar c then c :: subAux false rest
    else if inRun then subAux true rest
    else '_' :: subAux true rest

/-- re.sub(r"[^A-Za-z0-9._-]+", "_", s): every maximal run of characters
outside the class is replaced by one underscore. -/
def subRuns (l : List Char) : List Char := subAux false l

/-- Python s.strip(underscore): drop leading and trailing underscores. -/
def stripUnderscores (l : List Char) : List Char :=
  ((l.dropWhile (fun c => c == '_')).reverse.dropWhile (fun c => c == '_')).reverse

/-- safe_filename of api.py:
re.sub(r"[^A-Za-z0-9._-]+", "_", s or "").strip(underscore)[:80]. -/
def safe_filename (s : List Char) : List Char :=
  (stripUnderscores (subRuns s)).take 80

/-- The SHORTCUTS alias table of api.py, in source order. -/
def SHORTCUTS : List (List Char × List Char) :=
  [ (str "c", str "Continental AG (Germany, Fed. Rep.) (NBB: CTTA Y)"),
    (str "a", str "Airbus SE (NBB: EADS Y)"),
    (str "b", str "Boeing Co. (The) (NYS: BA)"),
    (str "d", str "Denso Corp (NBB: DNZO Y)"),
    (str "m", str "Magna International Inc (NYS: MGA)"),
    (str "i", str "Infineon Technologies AG (NBB: IFNN Y)"),
    (str "s", str "STMicroelectronics NV (NYS: STM)"),
    (str "conti", str "Continental AG (Germany, Fed. Rep.) (NBB: CTTA Y)"),
    (str "continental", str "Continental AG (Germany, Fed. Rep.) (NBB: CTTA Y)"),
    (str "airbus", str "Airbus SE (NBB: EADS Y)"),
    (str "eads", str "Airbus SE (NBB: EADS Y)"),
    (str "boeing", str "Boeing Co. (The) (NYS: BA)"),
    (str "ba", str "Boeing Co. (The) (NYS: BA)"),
    (str "denso", str "Denso Corp (NBB: DNZO Y)"),
    (str "dnzo", str "Denso Corp (NBB: DNZO Y)"),
    (str "magna", str "Magna International Inc (NYS: MGA)"),
    (str "mga", str "Magna International Inc (NYS: MGA)"),
    (str "infineon", str "Infineon Technologies AG (NBB: IFNN Y)"),
    (str "ifnn", str "Infineon Technologies AG (NBB: IFNN Y)"),
    (str "stmicro", str "STMicroelectronics NV (NYS: STM)"),
    (str "stm", str "STMicroelectronics NV (NYS: STM)") ]

/-- resolve_target of api.py:
key = (input_value or "").strip().lower(); SHORTCUTS.get(key, input_value.strip()). -/
def resolve_target (w : List Char) : List Char :=
  (List.lookup (pyLower (pyStrip w)) SHORTCUTS).getD (pyStrip w)

/-- Boolean test: the first list is a leading segment of the second. -/
def isPrefixB : List Char → List Char → Bool
  | [], _ => true
  | _ :: _, [] => false
  | a :: as, b :: bs => a == b && isPrefixB as bs

/-- Boolean test: the pattern occurs as a contiguous segment of the string. -/
def containsB (pat : List Char) : List Char → Bool
  | [] => pat.isEmpty
  | b :: bs => isPrefixB pat (b :: bs) || containsB pat bs

/-- Satisfaction of the filter built by anchored_ci_exact of api.py: the
regex is the escaped literal of the stripped input between start and end
anchors, with the case-insensitive option, so a stored name matches iff
it equals the stripped input up to letter case. -/
def ciExact (target name : List Char) : Bool :=
  pyLower name == pyLower (pyStrip target)

/-- Satisfaction of the stage-2 filter of export_at_root: the regex is
the escaped literal with the case-insensitive option and no anchors, so
a stored name matches iff it contains the target up to letter case. -/
def ciContains (target name : List Char) : Bool :=
  containsB (pyLower target) (pyLower name)

/-- A company document, reduced to the fields that participate in the
behaviour under verification: the lookup filters only on the name field
(the remaining projected fields are payload carried unchanged). -/
structure Doc where
  name : List Char
  country : List Char
deriving DecidableEq

/-- Stage 1 of export_at_root: companies.find with the anchored
case-insensitive exact filter, limited to 10 documents. -/
def stage1Docs (db : List Doc) (target : List Char) : List Doc :=
  (db.filter (fun d => ciExact target d.name)).take 10

/-- Stage 2 of export_at_root: companies.find with the case-insensitive
substring filter, limited to 10 documents. -/
def stage2Docs (db : List Doc) (target : List Char) : List Doc :=
  (db.filter (fun d => ciContains target d.name)).take 10

/-- The two-stage lookup of export_at_root together with a flag recording
whether the stage-2 query was issued: stage 2 runs exactly in the
`if not docs` branch, i.e. when stage 1 produced the empty list. -/
def lookupTrace (db : List Doc) (target : List Char) : List Doc × Bool :=
  let s1 := stage1Docs db target
  if s1 = [] then (stage2Docs db target, true) else (s1, false)

/-- The documents the handler continues with after the two-stage lookup. -/
def lookupDocs (db : List Doc) (target : List Char) : List Doc :=
  (lookupTrace db target).1

/-- The export filename of api.py:
f-string of safe_filename(target_name), an underscore, file_id, ".json". -/
def export_filename (target fid : List Char) : List Char :=
  safe_filename target ++ ('_' :: (fid ++ str ".json"))

/-- The detail text of the 404 raised by export_at_root:
"No company found for " followed by the quoted target name. -/
def notFoundDetail (target : List Char) : List Char :=
  (str "No company found for " ++ [squote]) ++ (target ++ [squote])

/-- The detail text of the 400 raised by export_at_root when neither
query parameter carries a nonempty value. -/
def missingParamDetail : List Char :=
  str "Missing query param " ++ [squote] ++ str "export" ++ [squote] ++
    str " (or " ++ [squote] ++ str "c" ++ [squote] ++ str ")."

/-- The media type used by file responses of api.py. -/
def octetStream : List Char := str "application/octet-stream"

/-- The route of download_file, as produced by request.url_for. -/
def downloadUrl (filename : List Char) : List Char := str "/download/" ++ filename

/-- The export directory of api.py (default EXPORT_DIR), as a path segment
placed before the filename. -/
def exportDirPath : List Char := str "/tmp/exports/"

/-- Responses the GET / handler can produce: 400, 404, the inline JSON
body of mode json, the link body of mode link, and the file attachment
with its X-Download-Link header value. -/
inductive ExportResp where
  | badRequest (detail : List Char)
  | notFound (detail : List Char)
  | jsonInline (downloadLink : List Char) (docs : List Doc)
  | linkOnly (downloadLink : List Char)
  | fileAttachment (path mediaType filename downloadLink : List Char)
deriving DecidableEq

/-- The query parameters declared by the export_at_root handler signature. -/
def exportQueryParams : List (List Char) := [str "export", str "c", str "mode"]

/-- The GET / handler export_at_root of api.py.  The two optional query
parameters are the export and c values (None modelled as none, an empty
string as some []); value = export or c; a missing or empty value is a
400; the target is alias-resolved, looked up in two stages, written to a
fresh file named from the target and the random id, and the response is
dispatched on mode with file as the default. -/
def export_at_root (db : List Doc) (eParam cParam : Option (List Char))
    (mode fid : List Char) : ExportResp :=
  let value := match eParam with
    | some v => if v = [] then cParam else some v
    | none => cParam
  match value with
  | none => .badRequest missingParamDetail
  | some v =>
    if v = [] then .badRequest missingParamDetail
    else
      let target := resolve_target v
      let docs := lookupDocs db target
      if docs = [] then .notFound (notFoundDetail target)
      else
        let filename := export_filename target fid
        let url := downloadUrl filename
        if mode = str "json" then .jsonInline url docs
        else if mode = str "link" then .linkOnly url
        else .fileAttachment (exportDirPath ++ filename) octetStream filename url

/-- Responses of the GET /download/{filename} handler. -/
inductive DownloadResp where
  | notFound (detail : List Char)
  | fileResp (path mediaType filename : List Char)
deriving DecidableEq

/-- The download_file handler of api.py: the filesystem is modelled as the
list of filenames present in the export directory; a missing file is a
404, an existing one is served as an octet-stream attachment. -/
def download_file (fs : List (List Char)) (filename : List Char) : DownloadResp :=
  if filename ∈ fs then
    .fileResp (exportDirPath ++ filename) octetStream filename
  else
    .notFound (str "File not found")

/-- A database access performed by a handler, tagged by collection. -/
inductive DbEffect where
  | read (coll : List Char)
  | write (coll : List Char)
deriving DecidableEq

/-- The endpoints defined in api.py. -/
inductive Endpoint where
  | root
  | download
  | health
  | ingest
deriving DecidableEq

/-- Test whether a database access is a write. -/
def isWriteEffect : DbEffect → Bool
  | .write _ => true
  | .read _ => false

/-- The database accesses each handler of api.py can perform, read off the
driver calls in its body: export_at_root runs up to two find calls on the
companies collection; download_file touches no database; health pings the
admin database and reads an estimated count of companies; ingest performs
the single insert_one on ingest_logs. -/
def dbEffects : Endpoint → List DbEffect
  | .root => [.read (str "companies"), .read (str "companies")]
  | .download => []
  | .health => [.read (str "admin"), .read (str "companies")]
  | .ingest => [.write (str "ingest_logs")]

/-! ### Helper lemmas -/

/-- Every pair of the alias table is found by lookup on its key. -/
theorem shortcuts_lookup_key : ∀ p ∈ SHORTCUTS, List.lookup p.1 SHORTCUTS = some p.2 := by
  decide

/-- No canonical name of the alias table is itself an alias key once
trimmed and lowercased, and canonical names carry no surrounding
whitespace. -/
theorem shortcuts_canonical_no_key : ∀ p ∈ SHORTCUTS,
    List.lookup (pyLower (pyStrip p.2)) SHORTCUTS = none ∧ pyStrip p.2 = p.2 := by
  decide

/-- Characters produced by the substitution pass all lie in the class. -/
theorem subAux_mem_allowed (l : List Char) :
    ∀ (b : Bool), ∀ c ∈ subAux b l, allowedChar c = true := by
  induction l with
  | nil => intro b c hc; simp [subAux] at hc
  | cons a t ih =>
    intro b c hc
    by_cases ha : allowedChar a
    · simp only [subAux, if_pos ha, List.mem_cons] at hc
      rcases hc with h | h
      · exact h ▸ ha
      · exact ih false c h
    · cases b with
      | true =>
        simp only [subAux, if_neg ha, if_pos rfl] at hc
        exact ih true c hc
      | false =>
        simp only [subAux, if_neg ha, if_neg Bool.false_ne_true, List.mem_cons] at hc
        rcases hc with h | h
        · exact h ▸ (by decide)
        · exact ih true c h

/-- Membership survives dropWhile. -/
theorem mem_dropWhile_subset {p : Char → Bool} {l : List Char} :
    ∀ c ∈ l.dropWhile p, c ∈ l := by
  induction l with
  | nil => simp
  | cons a t ih =>
    intro c hc
    by_cases ha : p a = true
    · rw [List.dropWhile_cons_of_pos ha] at hc
      exact List.mem_cons_of_mem _ (ih c hc)
    · rw [List.dropWhile_cons_of_neg ha] at hc
      exact hc

/-- Membership survives the two-sided underscore strip. -/
theorem mem_stripUnderscores {l : List Char} :
    ∀ c ∈ stripUnderscores l, c ∈ l := by
  intro c hc
  unfold stripUnderscores at hc
  rw [List.mem_reverse] at hc
  have h1 := mem_dropWhile_subset c hc
  rw [List.mem_reverse] at h1
  exact mem_dropWhile_subset c h1

/-- Membership survives take. -/
theorem mem_take_subset {l : List Char} {n : Nat} : ∀ c ∈ l.take n, c ∈ l := by
  induction l generalizing n with
  | nil => simp
  | cons a t ih =>
    intro c hc
    cases n with
    | zero => simp at hc
    | succ m =>
      rw [List.take_succ_cons, List.mem_cons] at hc
      rcases hc with h | h
      · exact h ▸ List.mem_cons_self a t
      · exact List.mem_cons_of_mem _ (ih c h)

/-- The head surviving a leading dropWhile of underscores is not an
underscore. -/
theorem head_lstrip_ne {l : List Char} {c : Char}
    (h : (l.dropWhile (fun c => c == '_')).head? = some c) : c ≠ '_' := by
  induction l with
  | nil => simp at h
  | cons a t ih =>
    rw [List.dropWhile_cons] at h
    by_cases ha : (a == '_') = true
    · rw [if_pos ha] at h
      exact ih h
    · rw [if_neg ha] at h
      simp only [List.head?_cons, Option.some.injEq] at h
      subst h
      simpa using ha

/-- dropWhile removes a leading segment: some leading part restores the
original list. -/
theorem dropWhile_restore (p : Char → Bool) (l : List Char) :
    ∃ q, q ++ l.dropWhile p = l := by
  induction l with
  | nil => exact ⟨[], rfl⟩
  | cons a t ih =>
    by_cases ha : p a = true
    · obtain ⟨q, hq⟩ := ih
      exact ⟨a :: q, by rw [List.dropWhile_cons_of_pos ha]; simpa using congrArg (a :: ·) hq⟩
    · exact ⟨[], by rw [List.dropWhile_cons_of_neg ha]; rfl⟩

/-- The right strip produces a leading segment of its input. -/
theorem rstrip_append (p : Char → Bool) (m : List Char) :
    ∃ r, (m.reverse.dropWhile p).reverse ++ r = m := by
  obtain ⟨q, hq⟩ := dropWhile_restore p m.reverse
  refine ⟨q.reverse, ?_⟩
  have h2 := congrArg List.reverse hq
  rwa [List.reverse_append, List.reverse_reverse] at h2

/-- A head? surviving take with a positive count was the head? already. -/
theorem head?_take_nonzero {x : List Char} {n : Nat} {c : Char}
    (hn : n ≠ 0) (h : (x.take n).head? = some c) : x.head? = some c := by
  cases x with
  | nil => simp at h
  | cons a t =>
    cases n with
    | zero => exact absurd rfl hn
    | succ m =>
      rw [List.take_succ_cons] at h
      simpa using h

/-! ### Claims C3, C4, C5, C7 -/

/-- C3 (amended): for every input string, safe_filename returns a string
containing only characters in the class [A-Za-z0-9._-], of length at
most 80, with no leading underscore; a trailing underscore can survive
when the 80-character truncation cuts right after one, so the trailing
part of the original claim is dropped. -/
theorem c3_safe_filename_sound (s : List Char) :
    (∀ c ∈ safe_filename s, allowedChar c = true) ∧
    (safe_filename s).length ≤ 80 ∧
    (safe_filename s).head? ≠ some '_' := by
  refine ⟨?_, ?_, ?_⟩
  · intro c hc
    have h1 : c ∈ stripUnderscores (subRuns s) := mem_take_subset c hc
    have h2 : c ∈ subRuns s := mem_stripUnderscores c h1
    exact subAux_mem_allowed s false c h2
  · unfold safe_filename
    rw [List.length_take]
    exact min_le_left _ _
  · intro h
    unfold safe_filename at h
    have hx : (stripUnderscores (subRuns s)).head? = some '_' :=
      head?_take_nonzero (by decide) h
    obtain ⟨r, hr⟩ :=
      rstrip_append (fun c => c == '_') ((subRuns s).dropWhile (fun c => c == '_'))
    unfold stripUnderscores at hx
    cases hA : (((subRuns s).dropWhile (fun c => c == '_')).reverse.dropWhile
        (fun c => c == '_')).reverse with
    | nil => rw [hA] at hx; simp at hx
    | cons a t =>
      rw [hA] at hx hr
      simp only [List.head?_cons, Option.some.injEq] at hx
      have hhead : ((subRuns s).dropWhile (fun c => c == '_')).head? = some a := by
        rw [← hr]; rfl
      exact head_lstrip_ne hhead hx

/-- C3 witness: the amended theorem applied at a concrete input. -/
theorem c3_witness :
    allowedChar 'b' = true ∧ (safe_filename (str "a b")).length ≤ 80 :=
  ⟨(c3_safe_filename_sound (str "a b")).1 'b' (by decide),
   (c3_safe_filename_sound (str "a b")).2.1⟩

/-- A concrete input on which the original C3 claim fails: 79 letters
followed by a disallowed character and one more letter. -/
def c3Bad : List Char := List.replicate 79 'a' ++ str "!a"

/-- C3 counterexample: the sanitizer output for c3Bad ends in an
underscore, because the 80-character truncation happens after the
underscore strip, so the claim that no trailing separator remains is
false. -/
theorem c3_counterexample :
    ¬ ((∀ c ∈ safe_filename c3Bad, allowedChar c = true) ∧
       (safe_filename c3Bad).length ≤ 80 ∧
       (safe_filename c3Bad).head? ≠ some '_' ∧
       (safe_filename c3Bad).getLast? ≠ some '_') := by
  intro h
  exact h.2.2.2 (by decide)

/-- C4: for every key of the alias table and every input whose trimmed,
lowercased form equals that key (which covers every variant obtained by
changing letter case and adding surrounding whitespace), resolution
yields the same canonical name as resolving the canonical name
directly; in particular the alias c resolves to the Continental entry. -/
theorem c4_alias_resolution :
    (∀ k v, (k, v) ∈ SHORTCUTS → ∀ w, pyLower (pyStrip w) = k →
      resolve_target w = resolve_target v) ∧
    resolve_target (str "c") = str "Continental AG (Germany, Fed. Rep.) (NBB: CTTA Y)" := by
  constructor
  · intro k v hmem w hw
    have h1 := shortcuts_lookup_key (k, v) hmem
    have h2 := shortcuts_canonical_no_key (k, v) hmem
    simp only at h1 h2
    rw [resolve_target, resolve_target, hw, h1, h2.1, Option.getD_some, Option.getD_none, h2.2]
  · decide

/-- C4 witness: the variant " C " of the alias c resolves like the
canonical Continental name. -/
theorem c4_witness :
    resolve_target (str " C ") =
      resolve_target (str "Continental AG (Germany, Fed. Rep.) (NBB: CTTA Y)") :=
  c4_alias_resolution.1 (str "c")
    (str "Continental AG (Germany, Fed. Rep.) (NBB: CTTA Y)") (by decide)
    (str " C ") (by decide)

/-- C5: for every input whose trimmed, lowercased form is not a key of
the alias table, resolution returns the trimmed input unchanged. -/
theorem c5_non_alias_identity (w : List Char)
    (h : List.lookup (pyLower (pyStrip w)) SHORTCUTS = none) :
    resolve_target w = pyStrip w := by
  rw [resolve_target, h]
  rfl

/-- C5 witness: a non-alias input is returned trimmed. -/
theorem c5_witness : resolve_target (str " zzz ") = pyStrip (str " zzz ") :=
  c5_non_alias_identity (str " zzz ") (by decide)

/-- C7: filenames built from identifiers of equal length (uuid4 strings
all have 36 characters) differ whenever the identifiers differ, for any
pair of target names, so no export overwrites an earlier export file. -/
theorem c7_filenames_injective (t1 t2 id1 id2 : List Char)
    (hlen : id1.length = id2.length) (hne : id1 ≠ id2) :
    export_filename t1 id1 ≠ export_filename t2 id2 := by
  intro h
  unfold export_filename at h
  have hsuf := (List.append_inj' h (by simp [hlen])).2
  have h3 : id1 ++ str ".json" = id2 ++ str ".json" := by
    injection hsuf
  exact hne (List.append_inj' h3 rfl).1

/-- C7 witness: two exports of the same target with different ids get
different filenames. -/
theorem c7_witness :
    export_filename (str "Boeing") (str "0") ≠ export_filename (str "Boeing") (str "1") :=
  c7_filenames_injective _ _ _ _ (by decide) (by decide)

/-! ### Substring helper lemmas -/

/-- A list is a leading segment of itself followed by anything. -/
theorem isPrefixB_append (t r : List Char) : isPrefixB t (t ++ r) = true := by
  induction t with
  | nil => rfl
  | cons a as ih => simp [isPrefixB, ih]

/-- Containment is preserved by prepending. -/
theorem containsB_of_right (pat s x : List Char) (h : containsB pat x = true) :
    containsB pat (s ++ x) = true := by
  induction s with
  | nil => simpa using h
  | cons a as ih =>
    rw [List.cons_append, containsB]
    simp [ih]

/-- A list contains itself as a leading segment of any extension. -/
theorem containsB_self_append (pat r : List Char) : containsB pat (pat ++ r) = true := by
  cases pat with
  | nil =>
    cases r with
    | nil => rfl
    | cons b bs => simp [containsB, isPrefixB]
  | cons a as =>
    have h := isPrefixB_append (a :: as) r
    rw [List.cons_append] at h ⊢
    rw [containsB]
    simp [h]

/-- A surrounded occurrence is contained. -/
theorem containsB_embed (t s r : List Char) : containsB t (s ++ (t ++ r)) = true :=
  containsB_of_right t s (t ++ r) (containsB_self_append t r)

/-- The lookup result is one of the two stage results. -/
theorem lookupDocs_cases (db : List Doc) (t : List Char) :
    lookupDocs db t = stage1Docs db t ∨ lookupDocs db t = stage2Docs db t := by
  unfold lookupDocs lookupTrace
  by_cases h : stage1Docs db t = []
  · right; simp [h]
  · left; simp [h]

/-! ### Claims C1, C2, C6, C8, C9, C10 -/

/-- C1: the stage-2 substring query is issued exactly when the stage-1
anchored exact query returned the empty list, and whenever stage 1
returned at least one document the lookup result is the stage-1 list
(with the stage-2 flag off), so the response is built from stage-1
results alone. -/
theorem c1_stage2_gating (db : List Doc) (target : List Char) :
    ((lookupTrace db target).2 = true ↔ stage1Docs db target = []) ∧
    (stage1Docs db target ≠ [] →
      lookupTrace db target = (stage1Docs db target, false)) := by
  constructor
  · unfold lookupTrace
    by_cases h : stage1Docs db target = []
    · simp [h]
    · simp [h]
  · intro h
    unfold lookupTrace
    simp [h]

/-- A concrete company document used by witnesses. -/
def docBoeing : Doc := ⟨str "Boeing Co. (The) (NYS: BA)", str "US"⟩

/-- C1 witness: with one exactly matching document, stage 1 is nonempty
and the lookup keeps the stage-1 result without issuing stage 2. -/
theorem c1_witness :
    lookupTrace [docBoeing] (str "Boeing Co. (The) (NYS: BA)") =
      (stage1Docs [docBoeing] (str "Boeing Co. (The) (NYS: BA)"), false) :=
  (c1_stage2_gating [docBoeing] (str "Boeing Co. (The) (NYS: BA)")).2 (by decide)

/-- C2 (amended): when both filter stages return zero documents for a
nonempty query value, the handler answers 404 with a detail text that
contains the resolved target name; for alias inputs the original query
string as submitted need not appear in the detail, since the alias is
resolved before the message is built. -/
theorem c2_not_found_detail (db : List Doc) (v mode fid : List Char)
    (hv : v ≠ [])
    (hempty : lookupDocs db (resolve_target v) = []) :
    export_at_root db (some v) none mode fid =
      ExportResp.notFound (notFoundDetail (resolve_target v)) ∧
    containsB (resolve_target v) (notFoundDetail (resolve_target v)) = true := by
  constructor
  · simp [export_at_root, hv, hempty]
  · unfold notFoundDetail
    exact containsB_embed _ _ _

/-- C2 witness: a query with no matches at all gets the 404 with the
resolved name inside the detail. -/
theorem c2_witness :
    export_at_root [] (some (str "qqq")) none (str "file") (str "1") =
      ExportResp.notFound (notFoundDetail (resolve_target (str "qqq"))) ∧
    containsB (resolve_target (str "qqq"))
      (notFoundDetail (resolve_target (str "qqq"))) = true :=
  c2_not_found_detail [] (str "qqq") (str "file") (str "1") (by decide) (by decide)

/-- C2 counterexample: for the alias input stm against an empty
collection, the 404 detail names the resolved company and does not
contain the original query string stm, so the claim as stated fails. -/
theorem c2_counterexample :
    ¬ (∀ d, export_at_root [] (some (str "stm")) none (str "file") (str "id0") =
        ExportResp.notFound d → containsB (str "stm") d = true) := by
  intro h
  exact absurd (h (notFoundDetail (resolve_target (str "stm"))) (by decide)) (by decide)

/-- C6 (amended): the lookup of this variant exposes only the query
parameters export, c and mode, with no limit and no country parameter;
the page limit is fixed at 10 and at most 10 projected documents are
returned per request. -/
theorem c6_fixed_limit (db : List Doc) (target : List Char) :
    (lookupDocs db target).length ≤ 10 ∧
    str "limit" ∉ exportQueryParams ∧ str "country" ∉ exportQueryParams := by
  refine ⟨?_, by decide, by decide⟩
  rcases lookupDocs_cases db target with h | h
  · rw [h]
    unfold stage1Docs
    rw [List.length_take]
    exact min_le_left _ _
  · rw [h]
    unfold stage2Docs
    rw [List.length_take]
    exact min_le_left _ _

/-- C6 counterexample: the handler signature declares neither a limit
nor a country query parameter, so the claimed 1 to 50 bounded limit and
the optional country constraint are not accepted by this code. -/
theorem c6_counterexample :
    ¬ (str "limit" ∈ exportQueryParams ∧ str "country" ∈ exportQueryParams) := by
  decide

/-- C8: no handler writes to the companies collection; filtering the
database accesses of every endpoint down to writes leaves exactly the
single ingest_logs insert of POST /ingest and nothing anywhere else. -/
theorem c8_read_only (e : Endpoint) :
    ((dbEffects e).filter isWriteEffect =
      if e = Endpoint.ingest then [DbEffect.write (str "ingest_logs")] else []) ∧
    DbEffect.write (str "companies") ∉ dbEffects e := by
  cases e <;> exact ⟨by decide, by decide⟩

/-- C9: a filename absent from the export directory is answered 404 and
a present one is served as an octet-stream attachment. -/
theorem c9_download (fs : List (List Char)) (fn : List Char) :
    (fn ∉ fs → download_file fs fn = DownloadResp.notFound (str "File not found")) ∧
    (fn ∈ fs → download_file fs fn =
      DownloadResp.fileResp (exportDirPath ++ fn) octetStream fn) := by
  constructor
  · intro h
    unfold download_file
    rw [if_neg h]
  · intro h
    unfold download_file
    rw [if_pos h]

/-- C9 witness: both branches at concrete filenames. -/
theorem c9_witness :
    download_file [] (str "x.json") = DownloadResp.notFound (str "File not found") ∧
    download_file [str "x.json"] (str "x.json") =
      DownloadResp.fileResp (exportDirPath ++ str "x.json") octetStream (str "x.json") :=
  ⟨(c9_download [] (str "x.json")).1 (by decide),
   (c9_download [str "x.json"] (str "x.json")).2 (by decide)⟩

/-- C10: with a nonempty query value and at least one match, any mode
other than json and link (misspellings and the empty string included)
takes the default branch: a file attachment with the octet-stream media
type and the X-Download-Link value, and no error. -/
theorem c10_default_mode_file (db : List Doc) (v mode fid : List Char)
    (hv : v ≠ [])
    (hdocs : lookupDocs db (resolve_target v) ≠ [])
    (hm1 : mode ≠ str "json") (hm2 : mode ≠ str "link") :
    export_at_root db (some v) none mode fid =
      ExportResp.fileAttachment
        (exportDirPath ++ export_filename (resolve_target v) fid)
        octetStream
        (export_filename (resolve_target v) fid)
        (downloadUrl (export_filename (resolve_target v) fid)) := by
  simp [export_at_root, hv, hdocs, hm1, hm2]

/-- A concrete company document used by the C10 witness. -/
def docZzz : Doc := ⟨str "zzz", str "DE"⟩

/-- C10 witness: the unrecognized mode xml is treated as mode file. -/
theorem c10_witness :
    export_at_root [docZzz] (some (str "zzz")) none (str "xml") (str "7") =
      ExportResp.fileAttachment
        (exportDirPath ++ export_filename (resolve_target (str "zzz")) (str "7"))
        octetStream
        (export_filename (resolve_target (str "zzz")) (str "7"))
        (downloadUrl (export_filename (resolve_target (str "zzz")) (str "7"))) :=
  c10_default_mode_file [docZzz] (str "zzz") (str "xml") (str "7")
    (by decide) (by decide) (by decide) (by decide)
